import Mathlib

/-
Shallow embedding of the knowledge-graph core of the nexus3 repository:
the KnowledgeGraph class (src/js/core/knowledge-graph.js) over the
StorageManager collections (nodes and edges).  JavaScript numbers that
carry scores or averages are modelled as rationals (the weights 3, 2,
1.5, 2.5 and their sums are exact in double precision in the modelled
range); timestamps are integers (milliseconds).  JavaScript objects used
as counting dictionaries are modelled as insertion-ordered association
lists.  The asynchronous storage layer is modelled as explicit state
passing over the two record collections; the in-memory nodeMemo cache is
not modelled separately, since in every modelled flow it is written in
lockstep with storage and read back only for records that storage also
returns.  Thrown JavaScript errors are modelled with Except or with an
explicit error constructor where a surrounding catch converts them to a
default value.
-/

namespace Nexus

/-- Model of the JavaScript expression a.includes(b): substring test. -/
def jsIncludes (s sub : String) : Bool :=
  (List.range (s.data.length + 1)).any (fun i => sub.data.isPrefixOf (s.data.drop i))

/-- Model of toLowerCase, per character (ASCII case mapping). -/
def jsToLower (s : String) : String :=
  String.mk (s.data.map Char.toLower)

/-- Model of substring 0 n, counted in characters. -/
def jsTake (s : String) (n : Nat) : String :=
  String.mk (s.data.take n)

/-- String length in characters. -/
def jsLength (s : String) : Nat :=
  s.data.length

/-- Model of trim: strip whitespace from both ends. -/
def jsTrim (s : String) : String :=
  String.mk ((((s.data.dropWhile Char.isWhitespace).reverse).dropWhile Char.isWhitespace).reverse)

/-- Helper of jsSplitWs: cur collects the current chunk reversed. -/
def jsSplitWsAux : List Char → List Char → List String
  | [], cur => if cur.isEmpty then [] else [String.mk cur.reverse]
  | c :: rest, cur =>
    if c.isWhitespace then
      if cur.isEmpty then jsSplitWsAux rest [] else String.mk cur.reverse :: jsSplitWsAux rest []
    else jsSplitWsAux rest (c :: cur)

/-- Split on whitespace runs without empty chunks, the behavior of the
regex split of the source on a trimmed string. -/
def jsSplitWs (s : String) : List String :=
  jsSplitWsAux s.data []

/-- Model of the JavaScript idiom s || d for a possibly absent string:
undefined, null and the empty string are falsy. -/
def jsOrStr (o : Option String) (d : String) : String :=
  match o with
  | some s => if s = "" then d else s
  | none => d

/-- Model of the JavaScript idiom n || d for a possibly absent number:
undefined, null and 0 are falsy. -/
def jsOrNat (o : Option Nat) (d : Nat) : Nat :=
  match o with
  | some n => if n = 0 then d else n
  | none => d

/-- Model of the JavaScript idiom n || d for a possibly absent integer
timestamp: undefined, null and 0 are falsy. -/
def jsOrInt (o : Option Int) (d : Int) : Int :=
  match o with
  | some n => if n = 0 then d else n
  | none => d

/-- Stable insertion of x into a sorted list: x is placed before every
element that does not compare strictly below it.  Used to model the
stable Array.prototype.sort of ES2019 and later; a stable sort is
determined up to equality by its comparator, so the choice of algorithm
is observationally faithful. -/
def stableInsert (le : α → α → Bool) (x : α) : List α → List α
  | [] => [x]
  | y :: ys => if le y x && !(le x y) then y :: stableInsert le x ys else x :: y :: ys

/-- Stable sort by a boolean comparison, modelling Array.prototype.sort
with a comparator c where le a b means c a b is nonpositive. -/
def jsStableSort (le : α → α → Bool) : List α → List α
  | [] => []
  | x :: xs => stableInsert le x (jsStableSort le xs)

theorem length_stableInsert (le : α → α → Bool) (x : α) (l : List α) :
    (stableInsert le x l).length = l.length + 1 := by
  induction l with
  | nil => rfl
  | cons y ys ih =>
    simp only [stableInsert]
    by_cases h : (le y x && !(le x y)) = true
    · simp [h, ih]
    · simp [h]

theorem length_jsStableSort (le : α → α → Bool) (l : List α) :
    (jsStableSort le l).length = l.length := by
  induction l with
  | nil => rfl
  | cons x xs ih => simp [jsStableSort, length_stableInsert, ih]

/-- Entity record inside node.content.entities. -/
structure Entity where
  name : String
deriving DecidableEq, Repr

/-- The content payload of a node.  The core reads only the summary,
text and entities sub-fields; each may be absent.  A node.content value
is always an object in the modelled flows (addNode defaults it to the
empty object), so its JavaScript truthiness test is always true. -/
structure Content where
  summary : Option String := none
  text : Option String := none
  entities : Option (List Entity) := none
deriving DecidableEq, Repr

/-- The preview object computed by generatePreview. -/
structure Preview where
  title : String
  summary : String
  keywords : List String
  source : String
  date : Int
deriving DecidableEq, Repr

/-- A stored knowledge node.  Fields follow the object built by addNode;
createdAt and updatedAt are stamped by the storage layer and none models
an absent key (no modelled flow writes an explicit undefined). -/
structure Node where
  id : String
  title : String
  content : Content
  url : Option String
  timestamp : Int
  source : String
  categories : List String
  tags : List String
  preview : Preview
  createdAt : Option Int := none
  updatedAt : Option Int := none
deriving DecidableEq, Repr

/-- A stored knowledge edge, following the object built by addEdge. -/
structure Edge where
  id : String
  source : String
  target : String
  type : String
  label : String
  weight : ℚ
  bidirectional : Bool
  timestamp : Int
  createdAt : Option Int := none
  updatedAt : Option Int := none
deriving DecidableEq, Repr

/-- The persisted store: the node and edge collections kept by the
StorageManager under its two storage keys. -/
structure St where
  nodes : List Node
  edges : List Edge
deriving DecidableEq, Repr

/-- Caller-supplied input to addNode; every field may be absent.
content, categories, tags and autoConnect are arrays or objects in the
source and therefore truthy whenever present. -/
structure NodeData where
  id : Option String := none
  title : Option String := none
  content : Option Content := none
  url : Option String := none
  timestamp : Option Int := none
  source : Option String := none
  categories : Option (List String) := none
  tags : Option (List String) := none
  autoConnect : Option (List String) := none
deriving DecidableEq, Repr

/-- Caller-supplied input to addEdge. -/
structure EdgeData where
  id : Option String := none
  source : String
  target : String
  type : Option String := none
  label : Option String := none
  weight : Option ℚ := none
  bidirectional : Option Bool := none
  timestamp : Option Int := none
deriving DecidableEq, Repr

/-- generatePreview from knowledge-graph.js.  It reads nodeData.title,
nodeData.content (summary, then text, then the entity names),
nodeData.source and nodeData.timestamp; now stands for Date.now().  The
catch fallback of the source is unreachable in the total model. -/
def generatePreview (nodeData : NodeData) (now : Int) : Preview :=
  let title := jsOrStr nodeData.title "Untitled"
  let summary :=
    match nodeData.content with
    | some c =>
      match c.summary with
      | some s =>
        if s ≠ "" then s
        else
          match c.text with
          | some t => jsTake t 150 ++ (if jsLength t > 150 then "..." else "")
          | none => "No preview available"
      | none =>
        match c.text with
        | some t => jsTake t 150 ++ (if jsLength t > 150 then "..." else "")
        | none => "No preview available"
    | none => "No preview available"
  let keywords :=
    match nodeData.content with
    | some c =>
      match c.entities with
      | some es => (es.map (fun e => e.name)).take 5
      | none => []
    | none => []
  { title := title
    summary := summary
    keywords := keywords
    source := jsOrStr nodeData.source "manual"
    date := jsOrInt nodeData.timestamp now }

/-- View of a full node under the duck typing of generatePreview, used
where the source passes a merged node object where addNode passes raw
node data. -/
def nodeDataOfNode (n : Node) : NodeData :=
  { id := some n.id
    title := some n.title
    content := some n.content
    url := n.url
    timestamp := some n.timestamp
    source := some n.source
    categories := some n.categories
    tags := some n.tags
    autoConnect := none }

/-- Lookup of a node record in the node collection, the linear scan of
KnowledgeGraph.getNode on a cache miss (the read-through cache holds the
same records in every modelled flow). -/
def getNodeIn (nodes : List Node) (nodeId : String) : Option Node :=
  nodes.find? (fun n => n.id == nodeId)

/-- KnowledgeGraph.getNode: throws when the id is falsy, otherwise
returns the matching record or null. -/
def getNode (st : St) (nodeId : String) : Except String (Option Node) :=
  if nodeId = "" then .error "Node ID is required"
  else .ok (getNodeIn st.nodes nodeId)

/-- Replace-first-or-append over the node collection: the findIndex,
in-place update and push sequence of saveKnowledgeNode.  The first
record with the same id is replaced by the spread merge of the old and
new records stamped with updatedAt now; when no record matches, the new
record is appended stamped with createdAt and updatedAt now.  The new
record carries every field except possibly the stamps, so the merge
keeps only the old createdAt when the new record lacks it. -/
def saveNodeInList (node : Node) (now : Int) : List Node → List Node
  | [] => [{ node with createdAt := some now, updatedAt := some now }]
  | n :: rest =>
    if n.id == node.id then
      { node with createdAt := node.createdAt <|> n.createdAt, updatedAt := some now } :: rest
    else n :: saveNodeInList node now rest

/-- StorageManager.saveKnowledgeNode over the store.  The node-count
metadata collection is not modelled. -/
def saveKnowledgeNode (st : St) (node : Node) (now : Int) : St :=
  { st with nodes := saveNodeInList node now st.nodes }

/-- Replace-first-or-append over the edge collection, in the same shape
as saveNodeInList. -/
def saveEdgeInList (edge : Edge) (now : Int) : List Edge → List Edge
  | [] => [{ edge with createdAt := some now, updatedAt := some now }]
  | e :: rest =>
    if e.id == edge.id then
      { edge with createdAt := edge.createdAt <|> e.createdAt, updatedAt := some now } :: rest
    else e :: saveEdgeInList edge now rest

/-- StorageManager.saveKnowledgeEdge over the store. -/
def saveKnowledgeEdge (st : St) (edge : Edge) (now : Int) : St :=
  { st with edges := saveEdgeInList edge now st.edges }

/-- StorageManager.deleteEdgesForNode: removes every edge whose source
or target is the given node id; returns false when nothing matched. -/
def deleteEdgesForNode (st : St) (nodeId : String) : Bool × St :=
  let filteredEdges := st.edges.filter (fun e => e.source != nodeId && e.target != nodeId)
  if filteredEdges.length = st.edges.length then (false, st)
  else (true, { st with edges := filteredEdges })

/-- StorageManager.deleteKnowledgeNode: removes the node records with
the given id; when nothing matched returns false without touching
storage, otherwise saves the filtered collection and cascades through
deleteEdgesForNode. -/
def deleteKnowledgeNode (st : St) (nodeId : String) : Bool × St :=
  let filteredNodes := st.nodes.filter (fun n => n.id != nodeId)
  if filteredNodes.length = st.nodes.length then (false, st)
  else
    let st1 : St := { st with nodes := filteredNodes }
    let r := deleteEdgesForNode st1 nodeId
    (true, r.2)

/-- StorageManager.deleteKnowledgeEdge. -/
def deleteKnowledgeEdge (st : St) (edgeId : String) : Bool × St :=
  let filteredEdges := st.edges.filter (fun e => e.id != edgeId)
  if filteredEdges.length = st.edges.length then (false, st)
  else (true, { st with edges := filteredEdges })

/-- KnowledgeGraph.deleteNode: throws on a falsy id, otherwise returns
the storage result (false when the id was absent) and evicts the cache
entry. -/
def deleteNode (st : St) (nodeId : String) : Except String (Bool × St) :=
  if nodeId = "" then .error "Node ID is required"
  else .ok (deleteKnowledgeNode st nodeId)

/-- KnowledgeGraph.addEdge: validates that source and target are
present and resolve to existing nodes, fills defaults (the weight and
bidirectional defaults use nullish coalescing, the others use the or
idiom), builds the edge id from source, target and eight characters of a
fresh uuid when absent, and persists.  The uuid argument models the
uuidv4 source. -/
def addEdge (st : St) (edgeData : EdgeData) (now : Int) (uuid : String) :
    Except String (String × St) :=
  if edgeData.source = "" ∨ edgeData.target = "" then
    .error "Edge must have source and target node IDs"
  else
    match getNodeIn st.nodes edgeData.source with
    | none => .error ("Source node not found: " ++ edgeData.source)
    | some _ =>
      match getNodeIn st.nodes edgeData.target with
      | none => .error ("Target node not found: " ++ edgeData.target)
      | some _ =>
        let edgeId := jsOrStr edgeData.id
          (edgeData.source ++ "-" ++ edgeData.target ++ "-" ++ jsTake uuid 8)
        let edge : Edge :=
          { id := edgeId
            source := edgeData.source
            target := edgeData.target
            type := jsOrStr edgeData.type "related"
            label := jsOrStr edgeData.label ""
            weight := edgeData.weight.getD 1
            bidirectional := edgeData.bidirectional.getD false
            timestamp := jsOrInt edgeData.timestamp now }
        .ok (edgeId, saveKnowledgeEdge st edge now)

/-- The edge data passed by the autoConnect loop of addNode. -/
def autoEdgeData (nodeId target : String) : EdgeData :=
  { source := nodeId, target := target, type := some "auto-connected", weight := some (1/2 : ℚ) }

/-- The autoConnect loop of addNode: one addEdge call per listed target
in order; a thrown addEdge error aborts the loop and propagates, leaving
the state as already mutated.  Each iteration consumes one uuid from the
modelled uuid source. -/
def addAutoEdges (st : St) (nodeId : String) (targets : List String) (now : Int)
    (uuids : List String) : Except String Unit × St :=
  match targets with
  | [] => (.ok (), st)
  | t :: rest =>
    match addEdge st (autoEdgeData nodeId t) now (uuids.headD "") with
    | .error e => (.error e, st)
    | .ok r => addAutoEdges r.2 nodeId rest now uuids.tail

/-- The node id resolution of addNode: nodeData.id when truthy, else a
fresh uuid from the modelled uuidv4 source. -/
def addNodeId (nodeData : NodeData) (uuids : List String) : String :=
  if (jsOrStr nodeData.id "") = "" then uuids.headD "" else jsOrStr nodeData.id ""

/-- Model of the uuid source left over after the node id was resolved:
uuidv4 is called only when nodeData.id is falsy. -/
def addNodeUuidsLeft (nodeData : NodeData) (uuids : List String) : List String :=
  if (jsOrStr nodeData.id "") = "" then uuids.tail else uuids

/-- The node object built by addNode before it is persisted. -/
def builtNode (nodeData : NodeData) (now : Int) (uuids : List String) : Node :=
  { id := addNodeId nodeData uuids
    title := jsOrStr nodeData.title "Untitled"
    content := nodeData.content.getD {}
    url := if jsOrStr nodeData.url "" = "" then none else nodeData.url
    timestamp := jsOrInt nodeData.timestamp now
    source := jsOrStr nodeData.source "manual"
    categories := nodeData.categories.getD []
    tags := nodeData.tags.getD []
    preview := generatePreview nodeData now }

/-- KnowledgeGraph.addNode: builds the node record with defaults and a
generated preview, persists it, then creates the automatic connections;
a failure inside the autoConnect loop is rethrown after the node was
already saved, so the mutated state is returned alongside the error. -/
def addNode (st : St) (nodeData : NodeData) (now : Int) (uuids : List String) :
    Except String String × St :=
  let nodeId := addNodeId nodeData uuids
  let st1 := saveKnowledgeNode st (builtNode nodeData now uuids) now
  match nodeData.autoConnect with
  | some targets =>
    match addAutoEdges st1 nodeId targets now (addNodeUuidsLeft nodeData uuids) with
    | (.ok _, st2) => (.ok nodeId, st2)
    | (.error e, st2) => (.error e, st2)
  | none => (.ok nodeId, st1)

/-- Caller-supplied partial update for updateNode, modelled over the
content fields the spread merge can touch; an absent field leaves the
stored value unchanged. -/
structure NodeUpdates where
  title : Option String := none
  content : Option Content := none
  url : Option String := none
  source : Option String := none
  timestamp : Option Int := none
  categories : Option (List String) := none
  tags : Option (List String) := none
deriving DecidableEq, Repr

/-- The spread merge of updateNode: updates win field by field, the id
is forced back to the addressed id and updatedAt is stamped. -/
def mergeNode (node : Node) (nodeId : String) (updates : NodeUpdates) (now : Int) : Node :=
  { node with
    id := nodeId
    title := updates.title.getD node.title
    content := updates.content.getD node.content
    url := match updates.url with | some u => some u | none => node.url
    source := updates.source.getD node.source
    timestamp := updates.timestamp.getD node.timestamp
    categories := updates.categories.getD node.categories
    tags := updates.tags.getD node.tags
    updatedAt := some now }

/-- JavaScript truthiness of updates.title in the preview recompute
test: a present nonempty string. -/
def truthyOptStr (o : Option String) : Bool :=
  match o with
  | some s => s != ""
  | none => false

/-- KnowledgeGraph.updateNode: throws on a falsy id or a missing node,
merges the updates, regenerates the preview when updates.content or
updates.title is truthy, persists and returns the updated record. -/
def updateNode (st : St) (nodeId : String) (updates : NodeUpdates) (now : Int) :
    Except String (Node × St) :=
  if nodeId = "" then .error "Node ID is required"
  else
    match getNodeIn st.nodes nodeId with
    | none => .error ("Node not found: " ++ nodeId)
    | some node =>
      let updatedNode := mergeNode node nodeId updates now
      let updatedNode :=
        if updates.content.isSome || truthyOptStr updates.title then
          { updatedNode with preview := generatePreview (nodeDataOfNode updatedNode) now }
        else updatedNode
      .ok (updatedNode, saveKnowledgeNode st updatedNode now)

/-- Caller-supplied search options; none models an absent key.  Because
the source spreads the caller object over the defaults, a present key
wins with its exact value (even a falsy one) and an absent key falls to
the default. -/
structure SearchOptions where
  limit : Option Nat := none
  offset : Option Nat := none
  sortBy : Option String := none
  order : Option String := none
  searchIn : Option (List String) := none
deriving DecidableEq, Repr

/-- The resolved option record built at the top of search. -/
structure ResolvedSearchOptions where
  limit : Nat
  offset : Nat
  sortBy : String
  order : String
  searchIn : List String
deriving DecidableEq, Repr

/-- Resolution of search options: ⟨spread semantics⟩ a present key keeps
its value, an absent one takes the default; the default searchIn list of
the source has four entries and does not contain url. -/
def resolveSearchOptions (o : SearchOptions) : ResolvedSearchOptions :=
  { limit := o.limit.getD 20
    offset := o.offset.getD 0
    sortBy := o.sortBy.getD "relevance"
    order := o.order.getD "desc"
    searchIn := o.searchIn.getD ["title", "content", "categories", "tags"] }

/-- The matchDetails object accumulated per node; title and summary hold
weighted scores, the others hold raw match counts, mirroring the
assignments in the source. -/
structure MatchDetails where
  title : Option ℚ := none
  summary : Option ℚ := none
  text : Option Nat := none
  entities : Option Nat := none
  categories : Option Nat := none
  tags : Option Nat := none
  url : Option Nat := none
deriving DecidableEq, Repr

/-- Number of query terms occurring as substrings of the lowercased
haystack: queryTerms.filter(term includes).length. -/
def countTermMatches (hay : String) (terms : List String) : Nat :=
  (terms.filter (fun t => jsIncludes hay t)).length

/-- Title scoring block of search. -/
def scoreTitle (searchIn : List String) (terms : List String) (n : Node)
    (p : ℚ × MatchDetails) : ℚ × MatchDetails :=
  if searchIn.contains "title" && (n.title != "") then
    let titleScore : ℚ := (countTermMatches (jsToLower n.title) terms : ℚ) * 3
    if titleScore > 0 then (p.1 + titleScore, { p.2 with title := some titleScore }) else p
  else p

/-- Content scoring block of search: summary at weight 2, full text at
weight 1, entities at weight 1.5 (counting matching entities). -/
def scoreContent (searchIn : List String) (terms : List String) (n : Node)
    (p : ℚ × MatchDetails) : ℚ × MatchDetails :=
  if searchIn.contains "content" then
    let p :=
      match n.content.summary with
      | some s =>
        if s ≠ "" then
          let summaryScore : ℚ := (countTermMatches (jsToLower s) terms : ℚ) * 2
          if summaryScore > 0 then (p.1 + summaryScore, { p.2 with summary := some summaryScore })
          else p
        else p
      | none => p
    let p :=
      match n.content.text with
      | some t =>
        if t ≠ "" then
          let textMatch := countTermMatches (jsToLower t) terms
          if textMatch > 0 then (p.1 + textMatch, { p.2 with text := some textMatch }) else p
        else p
      | none => p
    match n.content.entities with
    | some es =>
      let entityMatch :=
        (es.filter (fun e => terms.any (fun t => jsIncludes (jsToLower e.name) t))).length
      if entityMatch > 0 then (p.1 + entityMatch * (3/2 : ℚ), { p.2 with entities := some entityMatch })
      else p
    | none => p
  else p

/-- Categories scoring block of search: weight 2 per matching category. -/
def scoreCategories (searchIn : List String) (terms : List String) (n : Node)
    (p : ℚ × MatchDetails) : ℚ × MatchDetails :=
  if searchIn.contains "categories" then
    let categoryMatch :=
      (n.categories.filter (fun c => terms.any (fun t => jsIncludes (jsToLower c) t))).length
    if categoryMatch > 0 then (p.1 + categoryMatch * 2, { p.2 with categories := some categoryMatch })
    else p
  else p

/-- Tags scoring block of search: weight 2.5 per matching tag. -/
def scoreTags (searchIn : List String) (terms : List String) (n : Node)
    (p : ℚ × MatchDetails) : ℚ × MatchDetails :=
  if searchIn.contains "tags" then
    let tagMatch :=
      (n.tags.filter (fun tg => terms.any (fun t => jsIncludes (jsToLower tg) t))).length
    if tagMatch > 0 then (p.1 + tagMatch * (5/2 : ℚ), { p.2 with tags := some tagMatch })
    else p
  else p

/-- Url scoring block of search: weight 1 per matching term, only when
url is an enabled field and the node has a nonempty url. -/
def scoreUrl (searchIn : List String) (terms : List String) (n : Node)
    (p : ℚ × MatchDetails) : ℚ × MatchDetails :=
  if searchIn.contains "url" && (jsOrStr n.url "" != "") then
    let urlMatch := countTermMatches (jsToLower (jsOrStr n.url "")) terms
    if urlMatch > 0 then (p.1 + urlMatch, { p.2 with url := some urlMatch }) else p
  else p

/-- Per-node scoring of search over the enabled fields, in source
order: title, content, categories, tags, url. -/
def scoreNode (searchIn : List String) (terms : List String) (n : Node) : ℚ × MatchDetails :=
  scoreUrl searchIn terms n
    (scoreTags searchIn terms n
      (scoreCategories searchIn terms n
        (scoreContent searchIn terms n
          (scoreTitle searchIn terms n ((0 : ℚ), {})))))

/-- Query normalization of search: trim, lowercase, split on whitespace
runs.  On a trimmed nonempty string the regex split of the source never
produces empty chunks, which the filter reproduces. -/
def queryTermsOf (query : String) : List String :=
  jsSplitWs (jsToLower (jsTrim query))

/-- An element of the intermediate results array of search: the raw
node records of the blank-query branch, or the score wrapper objects of
the scored branch. -/
inductive SearchItem where
  | rawNode (n : Node)
  | scored (n : Node) (score : ℚ) (md : MatchDetails)
deriving DecidableEq, Repr

/-- Reading item.score: undefined (modelled as 0 for the comparator,
which subtracts) on raw nodes, present on scored wrappers. -/
def SearchItem.scoreOf : SearchItem → ℚ
  | .rawNode _ => 0
  | .scored _ s _ => s

/-- Reading item.node, which is undefined on the raw node records of the
blank-query branch. -/
def SearchItem.nodeField : SearchItem → Option Node
  | .rawNode _ => none
  | .scored n _ _ => some n

/-- Reading item.timestamp under the or-zero idiom of the blank-query
comparator; on wrapper objects of the scored branch item.timestamp would
be undefined, but that branch never sorts by timestamp. -/
def SearchItem.tsField : SearchItem → Int
  | .rawNode n => n.timestamp
  | .scored _ _ _ => 0

/-- JavaScript values produced by getNestedProperty on a node, as far as
the sort comparator distinguishes them. -/
inductive JsVal where
  | undefined
  | str (s : String)
  | num (q : ℚ)
  | arr
  | obj
deriving DecidableEq, Repr

/-- JavaScript truthiness of a JsVal. -/
def JsVal.truthy : JsVal → Bool
  | .undefined => false
  | .str s => s != ""
  | .num q => q != 0
  | .arr => true
  | .obj => true

/-- The or-zero idiom value || 0 of the sort comparator. -/
def JsVal.orZero (v : JsVal) : JsVal :=
  if v.truthy then v else .num 0

/-- getNestedProperty over the modelled node record: dotted paths into
the fields the record carries; anything else is undefined. -/
def nestedValue (n : Node) : String → JsVal
  | "id" => .str n.id
  | "title" => .str n.title
  | "url" => match n.url with | some u => .str u | none => .undefined
  | "timestamp" => .num n.timestamp
  | "source" => .str n.source
  | "categories" => .arr
  | "tags" => .arr
  | "content" => .obj
  | "preview" => .obj
  | "content.summary" => match n.content.summary with | some s => .str s | none => .undefined
  | "content.text" => match n.content.text with | some t => .str t | none => .undefined
  | "preview.title" => .str n.preview.title
  | "preview.summary" => .str n.preview.summary
  | "preview.source" => .str n.preview.source
  | "preview.date" => .num n.preview.date
  | "createdAt" => match n.createdAt with | some t => .num t | none => .undefined
  | "updatedAt" => match n.updatedAt with | some t => .num t | none => .undefined
  | _ => .undefined

/-- The sort key read by the non-relevance comparator: item.node is
undefined on the raw records of the blank-query branch, making
getNestedProperty return undefined. -/
def sortKeyOf (item : SearchItem) (path : String) : JsVal :=
  match item.nodeField with
  | some n => nestedValue n path
  | none => .undefined

/-- Comparator ordering of the non-relevance sort as a boolean le: two
strings compare lexicographically (modelling localeCompare), two numbers
numerically, order flips for desc, and any other combination subtracts
to NaN, which the sort treats as zero, keeping the stable order. -/
def sortByLe (asc : Bool) (path : String) (a b : SearchItem) : Bool :=
  match (sortKeyOf a path).orZero, (sortKeyOf b path).orZero with
  | .str x, .str y => if asc then x ≤ y else y ≤ x
  | .num x, .num y => if asc then x ≤ y else y ≤ x
  | _, _ => true

/-- The pre-pagination results list of search: the blank-query branch
returns every node sorted by timestamp descending; the scored branch
scores every node, drops zero scores and sorts by score descending; a
non-relevance sortBy then re-sorts by the named field. -/
def searchRankedAll (st : St) (query : String) (o : ResolvedSearchOptions) : List SearchItem :=
  let results :=
    if jsTrim query = "" then
      jsStableSort (fun a b => SearchItem.tsField b ≤ SearchItem.tsField a)
        (st.nodes.map SearchItem.rawNode)
    else
      let terms := queryTermsOf query
      let scoredItems := st.nodes.map (fun n =>
        let p := scoreNode o.searchIn terms n
        SearchItem.scored n p.1 p.2)
      let filtered := scoredItems.filter (fun i => i.scoreOf > 0)
      jsStableSort (fun a b => SearchItem.scoreOf b ≤ SearchItem.scoreOf a) filtered
  if o.sortBy ≠ "relevance" then
    jsStableSort (sortByLe (o.order = "asc") o.sortBy) results
  else results

/-- An element of the returned results array: the source spreads
result.node and attaches score and matchDetails, so on the raw records
of the blank-query branch, where result.node is undefined, the spread
contributes nothing and score and matchDetails are undefined. -/
structure SearchEntry where
  nodeFields : Option Node
  score : Option ℚ
  matchDetails : Option MatchDetails
deriving DecidableEq, Repr

/-- The result formatting map of search. -/
def formatSearchItem : SearchItem → SearchEntry
  | .rawNode _ => { nodeFields := none, score := none, matchDetails := none }
  | .scored n s md => { nodeFields := some n, score := some s, matchDetails := some md }

/-- The return object of search. -/
structure SearchOutput where
  total : Nat
  offset : Nat
  limit : Nat
  results : List SearchEntry
deriving DecidableEq, Repr

/-- KnowledgeGraph.search on its non-error path: rank, then paginate
with slice offset to offset plus limit, then format; total is the
pre-pagination length. -/
def search (st : St) (query : String) (opts : SearchOptions) : SearchOutput :=
  let o := resolveSearchOptions opts
  let all := searchRankedAll st query o
  let paginated := (all.drop o.offset).take o.limit
  { total := all.length
    offset := o.offset
    limit := o.limit
    results := paginated.map formatSearchItem }

/-- Caller-supplied options of getConnectedNodes; none models an absent
key.  These options are resolved with the or idiom (no spread), so a
falsy present value also falls to the default. -/
structure GCOptions where
  depth : Option Nat := none
  limit : Option Nat := none
  edgeTypes : Option (List String) := none
  direction : Option String := none
  includeSelf : Option Bool := none
deriving DecidableEq, Repr

/-- An element of the connectedNodes result array. -/
structure ConnEntry where
  node : Node
  edge : Option Edge
  depth : Nat
  direction : Option String
deriving DecidableEq, Repr

/-- The seed-relative edge filter computed once at the top of
getConnectedNodes: edgeTypes filtering, then direction matching against
the seed node id. -/
def edgeMatchesSeed (edgeTypes : Option (List String)) (direction : String)
    (nodeId : String) (e : Edge) : Bool :=
  if (match edgeTypes with | some ts => !(ts.contains e.type) | none => false) then false
  else if direction = "out" then e.source == nodeId
  else if direction = "in" then e.target == nodeId
  else e.source == nodeId || e.target == nodeId

/-- Read-only context of the traversal loops. -/
structure TravCtx where
  nodes : List Node
  connectedEdges : List Edge
  limit : Nat
  includeSelf : Bool
  seedId : String
deriving Repr

/-- Outcome of one traversal loop: continue with updated bookkeeping,
return the results early from the limit check, or propagate a thrown
getNode error (an empty connected id), which the surrounding catch turns
into an empty result. -/
inductive TravStep where
  | next (visited : List String) (acc : List ConnEntry) (frontier : List String)
  | finished (acc : List ConnEntry)
  | thrown
deriving Repr

/-- The inner edge loop of getConnectedNodes for one frontier node:
computes the neighbor id, skips visited ids, marks the neighbor visited,
resolves the neighbor record (appending an entry and extending the next
frontier when it exists) and applies the limit check after every
iteration. -/
def processEdges (ctx : TravCtx) (currentDepth : Nat) (currentId : String)
    (edges : List Edge) (visited : List String) (acc : List ConnEntry)
    (next : List String) : TravStep :=
  match edges with
  | [] => .next visited acc next
  | e :: rest =>
    let connectedId := if e.source == currentId then e.target else e.source
    if visited.contains connectedId then
      processEdges ctx currentDepth currentId rest visited acc next
    else if connectedId = "" then .thrown
    else
      match getNodeIn ctx.nodes connectedId with
      | some connectedNode =>
        let entry : ConnEntry :=
          { node := connectedNode, edge := some e, depth := currentDepth,
            direction := some (if e.source == currentId then "out" else "in") }
        let acc' := acc ++ [entry]
        if ctx.limit ≠ 0 ∧ ctx.limit ≤ acc'.length then .finished acc'
        else processEdges ctx currentDepth currentId rest (connectedId :: visited) acc'
          (next ++ [connectedId])
      | none =>
        if ctx.limit ≠ 0 ∧ ctx.limit ≤ acc.length then .finished acc
        else processEdges ctx currentDepth currentId rest (connectedId :: visited) acc next

/-- The frontier loop of getConnectedNodes for one depth level: the
includeSelf entry is injected for the seed at level one without a limit
check, then the pre-filtered edge list is scanned for edges incident to
the current node and handed to the edge loop. -/
def processFrontier (ctx : TravCtx) (currentDepth : Nat) (frontier : List String)
    (visited : List String) (acc : List ConnEntry) (next : List String) : TravStep :=
  match frontier with
  | [] => .next visited acc next
  | currentId :: rest =>
    let acc :=
      if ctx.includeSelf && currentDepth == 1 && (currentId == ctx.seedId) then
        match getNodeIn ctx.nodes currentId with
        | some node => acc ++ [{ node := node, edge := none, depth := 0, direction := none }]
        | none => acc
      else acc
    let nodeEdges := ctx.connectedEdges.filter
      (fun e => e.source == currentId || e.target == currentId)
    match processEdges ctx currentDepth currentId nodeEdges visited acc next with
    | .finished final => .finished final
    | .thrown => .thrown
    | .next visited acc next => processFrontier ctx currentDepth rest visited acc next

/-- The while loop over depth levels; the fuel argument counts the
remaining levels, matching currentDepth running from one to the resolved
depth. -/
def processLevels (ctx : TravCtx) (fuel : Nat) (currentDepth : Nat)
    (frontier : List String) (visited : List String) (acc : List ConnEntry) :
    Option (List ConnEntry) :=
  match fuel with
  | 0 => some acc
  | fuel + 1 =>
    if frontier.isEmpty then some acc
    else
      match processFrontier ctx currentDepth frontier visited acc [] with
      | .finished final => some final
      | .thrown => none
      | .next visited acc next => processLevels ctx fuel (currentDepth + 1) next visited acc

/-- KnowledgeGraph.getConnectedNodes: resolves options with the or
idiom, pre-filters the stored edges against the seed node, runs the
breadth loop and returns the collected entries; any thrown error is
caught and becomes an empty array. -/
def getConnectedNodes (st : St) (nodeId : String) (opts : GCOptions) : List ConnEntry :=
  if nodeId = "" then []
  else
    let depth := jsOrNat opts.depth 1
    let limit := jsOrNat opts.limit 50
    let direction := jsOrStr opts.direction "both"
    let includeSelf := opts.includeSelf.getD false
    let connectedEdges := st.edges.filter (edgeMatchesSeed opts.edgeTypes direction nodeId)
    let visited := if includeSelf then [] else [nodeId]
    let ctx : TravCtx :=
      { nodes := st.nodes, connectedEdges := connectedEdges, limit := limit,
        includeSelf := includeSelf, seedId := nodeId }
    match processLevels ctx depth 1 [nodeId] visited [] with
    | some acc => acc
    | none => []

/-- A JavaScript object used as a counting dictionary, modelled as an
insertion-ordered association list without duplicate keys. -/
abbrev CountMap := List (String × Nat)

/-- The counting idiom obj key = (obj key or 0) + 1: the first entry
with the key is incremented, a missing key is appended with count 1. -/
def bump : CountMap → String → CountMap
  | [], k => [(k, 1)]
  | (k', v) :: rest, k =>
    if k' = k then (k', v + 1) :: rest else (k', v) :: bump rest k

/-- Sum of the values of a counting dictionary. -/
def sumVals (m : CountMap) : Nat :=
  (m.map (fun p => p.2)).sum

/-- Year and month of a day number counted from the Unix epoch, by the
standard civil-from-days computation.  The source formats the month
bucket with getFullYear and getMonth of a Date, which use the local
timezone of the host; the model fixes UTC. -/
def civilYearMonth (z : Int) : Int × Int :=
  let z := z + 719468
  let era := Int.fdiv z 146097
  let doe := z - era * 146097
  let yoe := Int.fdiv (doe - Int.fdiv doe 1460 + Int.fdiv doe 36524 - Int.fdiv doe 146096) 365
  let y := yoe + era * 400
  let doy := doe - (365 * yoe + Int.fdiv yoe 4 - Int.fdiv yoe 100)
  let mp := Int.fdiv (5 * doy + 2) 153
  let m := mp + (if mp < 10 then 3 else -9)
  (y + (if m ≤ 2 then 1 else 0), m)

/-- The month bucket string of getStatistics, year dash zero-padded
month. -/
def monthKey (timestamp : Int) : String :=
  let ym := civilYearMonth (Int.fdiv timestamp 86400000)
  toString ym.1 ++ "-" ++ (if ym.2 < 10 then "0" ++ toString ym.2 else toString ym.2)

/-- The connectionStats object of getStatistics. -/
structure ConnectionStats where
  min : Nat
  max : Nat
  avg : ℚ
  isolated : Nat
deriving DecidableEq, Repr

/-- The return object of getStatistics. -/
structure Statistics where
  nodeCount : Nat
  edgeCount : Nat
  categoriesDistribution : CountMap
  sourceDistribution : CountMap
  timeDistribution : CountMap
  edgeTypeDistribution : CountMap
  connectionStats : ConnectionStats
  lastUpdated : Int
deriving DecidableEq, Repr

/-- Minimum of a list of counts, used only on a nonempty list where it
models Math.min over the spread values. -/
def minVals : List Nat → Nat
  | [] => 0
  | x :: xs => xs.foldl Nat.min x

/-- Maximum of a list of counts, as Math.max over the spread values. -/
def maxVals : List Nat → Nat
  | [] => 0
  | x :: xs => xs.foldl Nat.max x

/-- KnowledgeGraph.getStatistics on its non-error path: single passes
over nodes and edges building the category, source, month and edge-type
distributions, the per-endpoint connection counts (each edge increments
both its source and its target), the isolated-node count and the
min-max-average summary. -/
def getStatistics (st : St) (now : Int) : Statistics :=
  let categoriesCounts := st.nodes.foldl (fun m n => n.categories.foldl bump m) []
  let sourceCounts := st.nodes.foldl (fun m n => bump m (jsOrStr (some n.source) "unknown")) []
  let timeCounts := st.nodes.foldl (fun m n => bump m (monthKey n.timestamp)) []
  let edgeTypeCounts := st.edges.foldl (fun m e => bump m (jsOrStr (some e.type) "unknown")) []
  let connectionCounts := st.edges.foldl (fun m e => bump (bump m e.source) e.target) []
  let isolatedCount :=
    (st.nodes.filter (fun n => !(connectionCounts.any (fun p => p.1 == n.id)))).length
  let connStats :=
    if connectionCounts.length > 0 then
      let counts := connectionCounts.map (fun p => p.2)
      { min := minVals counts
        max := maxVals counts
        avg := (counts.sum : ℚ) / (counts.length : ℚ)
        isolated := isolatedCount }
    else if st.nodes.length > 0 then
      { min := 0, max := 0, avg := 0, isolated := st.nodes.length }
    else
      { min := 0, max := 0, avg := 0, isolated := 0 }
  { nodeCount := st.nodes.length
    edgeCount := st.edges.length
    categoriesDistribution := categoriesCounts
    sourceDistribution := sourceCounts
    timeDistribution := timeCounts
    edgeTypeDistribution := edgeTypeCounts
    connectionStats := connStats
    lastUpdated := now }

/-- Referential integrity of the store: every stored edge has both
endpoints resolving to stored nodes. -/
def refIntegrity (st : St) : Prop :=
  ∀ e ∈ st.edges, (∃ nd ∈ st.nodes, nd.id = e.source) ∧ (∃ nd ∈ st.nodes, nd.id = e.target)

instance (st : St) : Decidable (refIntegrity st) := by
  unfold refIntegrity
  infer_instance

/-- A minimal preview value as addNode would generate it for a node
without content. -/
def previewOf (title : String) (ts : Int) : Preview :=
  { title := title, summary := "No preview available", keywords := [], source := "manual",
    date := ts }

/-- Concrete node fixture. -/
def mkNode (id title : String) : Node :=
  { id := id, title := title, content := {}, url := none, timestamp := 1, source := "manual",
    categories := [], tags := [], preview := previewOf title 1 }

/-- Concrete edge fixture. -/
def mkEdge (id s t : String) : Edge :=
  { id := id, source := s, target := t, type := "related", label := "", weight := 1,
    bidirectional := false, timestamp := 1 }

/-- Store with a two-edge path A to B to C. -/
def stABC : St :=
  { nodes := [mkNode "A" "Node A", mkNode "B" "Node B", mkNode "C" "Node C"],
    edges := [mkEdge "eAB" "A" "B", mkEdge "eBC" "B" "C"] }

/-- Store with a single node. -/
def stOne : St := { nodes := [mkNode "n1" "Hello"], edges := [] }

/-- Store with two nodes and one edge from A to B. -/
def stAB : St :=
  { nodes := [mkNode "A" "Node A", mkNode "B" "Node B"], edges := [mkEdge "eAB" "A" "B"] }

/-- Node whose only match for the query rust is its url. -/
def urlNode : Node := { mkNode "u1" "Bookmarks" with url := some "https://rust-lang.org" }

/-- Store containing only urlNode. -/
def stUrl : St := { nodes := [urlNode], edges := [] }

/-- Claim C1: getConnectedNodes is claimed to scan, at every depth
level, all stored edges incident to each frontier node, so that for
depth at least two every node within depth hops of the seed appears,
including nodes whose connecting edge is not incident to the seed.  The
source instead filters the stored edges against the seed node once,
before the loop, and the per-frontier-node scan draws from that
pre-filtered list; on the concrete path A to B to C, a depth-two
traversal from A therefore returns only B, never reaching C, although
the edge from B to C is stored.  This closed evaluation exhibits the
divergence. -/
theorem c1_depth_two_misses_transitive_neighbor :
    stABC.edges.map (fun e => (e.source, e.target)) = [("A", "B"), ("B", "C")] ∧
    (getConnectedNodes stABC "A" { depth := some 2 }).map (fun x => (x.node.id, x.depth)) =
      [("B", 1)] := by
  constructor
  · rfl
  · rfl

/-- Claim C2: search with a blank query is claimed to return all stored
nodes (up to pagination) sorted by timestamp descending, each result
carrying the stored node fields.  In the blank-query branch the results
array holds raw node records, yet the final formatting map spreads
result.node, which is undefined there, so every returned element loses
all node fields and carries only undefined score and matchDetails.  On a
one-node store the returned object is exactly that. -/
theorem c2_blank_query_drops_node_fields :
    search stOne "" {} =
      { total := 1, offset := 0, limit := 20,
        results := [{ nodeFields := none, score := none, matchDetails := none }] } := by
  rfl

/-- Claim C3 counterexample: with limit one and includeSelf true on a
store where the seed has one neighbor, getConnectedNodes returns two
entries, exceeding the limit, because the includeSelf entry is appended
without a limit check; the claim asserts the bound for any combination
of options. -/
theorem c3_cex_includeSelf_exceeds_limit :
    (getConnectedNodes stAB "A" { limit := some 1, includeSelf := some true }).length = 2 := by
  rfl

/-- Claim C6 counterexample: under default options a query matching a
node only inside its url is not returned at all (total zero), though the
url does contain the query term and an explicit searchIn including url
does match it; the claim asserts that url is among the default searched
fields. -/
theorem c6_cex_url_not_searched_by_default :
    (search stUrl "rust" {}).total = 0 ∧
    jsIncludes (jsToLower (jsOrStr urlNode.url "")) "rust" = true ∧
    (search stUrl "rust"
      { searchIn := some ["title", "content", "categories", "tags", "url"] }).total = 1 := by
  refine ⟨by with_unfolding_all rfl, rfl, by with_unfolding_all rfl⟩

/-- Node fixture for claim C5 with a consistent preview. -/
def n1C5 : Node :=
  { id := "n1", title := "A", content := { summary := some "Sum" }, url := none,
    timestamp := 5, source := "manual", categories := [], tags := [],
    preview := { title := "A", summary := "Sum", keywords := [], source := "manual", date := 5 } }

/-- Store containing only n1C5. -/
def stC5 : St := { nodes := [n1C5], edges := [] }

/-- Claim C5 counterexample: an update that sets the title to the empty
string changes the title, yet the preview is not recomputed because the
recompute test uses JavaScript truthiness, so after the successful
update the stored node has title empty, stale preview title A, while a
recomputation would yield preview title Untitled; the starting preview
was consistent. -/
theorem c5_cex_falsy_title_update_leaves_preview_stale :
    n1C5.preview = generatePreview (nodeDataOfNode n1C5) 5 ∧
    ((updateNode stC5 "n1" { title := some "" } 100).toOption.bind
        (fun p => getNodeIn p.2.nodes "n1")).map
      (fun m => (m.title, m.preview.title, (generatePreview (nodeDataOfNode m) 100).title)) =
      some ("", "A", "Untitled") := by
  refine ⟨rfl, rfl⟩

/-- Claim C6 amended: the default searchIn list resolved by search is
title, content, categories, tags, without url; consequently the score of
a node under default options does not depend on its url at all, so a
node matching the query only inside its url is excluded under default
options (url is searched only when the caller passes a searchIn list
containing url). -/
theorem c6_default_searchIn_has_no_url :
    (resolveSearchOptions {}).searchIn = ["title", "content", "categories", "tags"] ∧
    ∀ (terms : List String) (n : Node) (u : Option String),
      scoreNode (resolveSearchOptions {}).searchIn terms { n with url := u } =
        scoreNode (resolveSearchOptions {}).searchIn terms n :=
  ⟨rfl, fun _ _ _ => rfl⟩

/-- Claim C7: search applies pagination after the full ranking: the
returned results array is the slice of the ranked list from offset of
length at most limit, so its length is the minimum of the limit and the
truncated difference of total and offset, and total is the length of the
ranked list before pagination. -/
theorem c7_pagination_after_full_ranking (st : St) (q : String) (L O : Nat) :
    (search st q { limit := some L, offset := some O }).results.length =
      min L ((search st q { limit := some L, offset := some O }).total - O) ∧
    (search st q { limit := some L, offset := some O }).total =
      (searchRankedAll st q (resolveSearchOptions { limit := some L, offset := some O })).length := by
  constructor
  · simp [search, resolveSearchOptions]
  · rfl

/-- Claim C8: deleting a node id that is not present in the node
collection returns false rather than an error and leaves the store
unchanged (the empty id is rejected upfront as a validation error by the
source, so the claim quantifies over well-formed ids). -/
theorem c8_delete_absent_id_returns_false (st : St) (x : String) (hx : x ≠ "")
    (h : ∀ n ∈ st.nodes, n.id ≠ x) :
    deleteNode st x = .ok (false, st) := by
  have hfilter : st.nodes.filter (fun n => n.id != x) = st.nodes :=
    List.filter_eq_self.mpr (fun n hn => by simpa using h n hn)
  simp [deleteNode, hx, deleteKnowledgeNode, hfilter]

/-- Witness for claim C8 at a concrete store and a concrete absent
id. -/
theorem c8_delete_absent_id_witness :
    deleteNode stAB "X" = .ok (false, stAB) :=
  c8_delete_absent_id_returns_false stAB "X" (by decide) (by decide)

theorem sumVals_bump (m : CountMap) (k : String) : sumVals (bump m k) = sumVals m + 1 := by
  induction m with
  | nil => rfl
  | cons hd tl ih =>
    obtain ⟨k', v⟩ := hd
    by_cases h : k' = k
    · simp [bump, h, sumVals]
      omega
    · simp only [bump, if_neg h]
      simp [sumVals] at ih ⊢
      omega

theorem sumVals_foldl_bump (key : Node → String) (l : List Node) :
    ∀ m : CountMap, sumVals (l.foldl (fun m n => bump m (key n)) m) = sumVals m + l.length := by
  induction l with
  | nil => intro m; simp
  | cons n rest ih =>
    intro m
    simp only [List.foldl_cons, List.length_cons, ih, sumVals_bump]
    omega

/-- Claim C9: on the non-error path of getStatistics the values of the
source distribution sum to the node count, since every node increments
exactly one source bucket (its source string, with unknown for a falsy
source). -/
theorem c9_source_distribution_sums_to_node_count (st : St) (now : Int) :
    sumVals (getStatistics st now).sourceDistribution = (getStatistics st now).nodeCount := by
  show sumVals (st.nodes.foldl (fun m n => bump m (jsOrStr (some n.source) "unknown")) []) =
    st.nodes.length
  rw [sumVals_foldl_bump]
  simp [sumVals]

theorem filter_all_of_length_eq {α : Type _} (p : α → Bool) (l : List α)
    (h : (l.filter p).length = l.length) : ∀ a ∈ l, p a := by
  have heq : l.filter p = l := (List.filter_sublist l).eq_of_length h
  exact List.filter_eq_self.mp heq

/-- Claim C4: deleting a node cascades to delete every edge referencing
it: on a store satisfying referential integrity, a successful
deleteKnowledgeNode leaves no edge whose source or target is the deleted
id, and referential integrity is preserved by the operation. -/
theorem c4_delete_cascades_preserving_integrity (st : St) (n : String)
    (h : refIntegrity st) :
    ((deleteKnowledgeNode st n).1 = true →
      ∀ e ∈ (deleteKnowledgeNode st n).2.edges, e.source ≠ n ∧ e.target ≠ n) ∧
    refIntegrity (deleteKnowledgeNode st n).2 := by
  unfold deleteKnowledgeNode
  by_cases h1 : (st.nodes.filter (fun nd => nd.id != n)).length = st.nodes.length
  · simp only [if_pos h1]
    exact ⟨fun hfalse => by simp at hfalse, h⟩
  · simp only [if_neg h1]
    unfold deleteEdgesForNode
    by_cases h2 : (st.edges.filter (fun e => e.source != n && e.target != n)).length =
        st.edges.length
    · simp only [if_pos h2]
      have hall : ∀ e ∈ st.edges, e.source ≠ n ∧ e.target ≠ n := by
        intro e he
        have := filter_all_of_length_eq _ _ h2 e he
        simpa using this
      refine ⟨fun _ => hall, ?_⟩
      intro e he
      obtain ⟨⟨nds, hnds, hids⟩, ⟨ndt, hndt, hidt⟩⟩ := h e he
      refine ⟨⟨nds, List.mem_filter.mpr ⟨hnds, ?_⟩, hids⟩,
              ⟨ndt, List.mem_filter.mpr ⟨hndt, ?_⟩, hidt⟩⟩
      · simpa [hids] using (hall e he).1
      · simpa [hidt] using (hall e he).2
    · simp only [if_neg h2]
      have hmem : ∀ e ∈ st.edges.filter (fun e => e.source != n && e.target != n),
          e ∈ st.edges ∧ e.source ≠ n ∧ e.target ≠ n := by
        intro e he
        have h3 := List.mem_filter.mp he
        refine ⟨h3.1, ?_⟩
        simpa using h3.2
      refine ⟨fun _ => fun e he => (hmem e he).2, ?_⟩
      intro e he
      obtain ⟨hein, hs, ht⟩ := hmem e he
      obtain ⟨⟨nds, hnds, hids⟩, ⟨ndt, hndt, hidt⟩⟩ := h e hein
      refine ⟨⟨nds, List.mem_filter.mpr ⟨hnds, ?_⟩, hids⟩,
              ⟨ndt, List.mem_filter.mpr ⟨hndt, ?_⟩, hidt⟩⟩
      · simpa [hids] using hs
      · simpa [hidt] using ht

/-- Witness for claim C4 at a concrete store whose referential
integrity holds. -/
theorem c4_delete_cascades_witness :
    (((deleteKnowledgeNode stAB "A").1 = true →
      ∀ e ∈ (deleteKnowledgeNode stAB "A").2.edges, e.source ≠ "A" ∧ e.target ≠ "A") ∧
    refIntegrity (deleteKnowledgeNode stAB "A").2) :=
  c4_delete_cascades_preserving_integrity stAB "A" (by decide)

theorem jsOrNat_pos (o : Option Nat) (d : Nat) (hd : 1 ≤ d) : 1 ≤ jsOrNat o d := by
  cases o with
  | none => simpa [jsOrNat] using hd
  | some n =>
    by_cases h : n = 0
    · simpa [jsOrNat, h] using hd
    · simp only [jsOrNat, if_neg h]
      omega

/-- Bound carried through one traversal loop result: strictly below the
limit when the loop continues, at most the limit when it returned early,
and nothing when it threw. -/
def stepBound (lim : Nat) : TravStep → Prop
  | .next _ acc _ => acc.length < lim
  | .finished final => final.length ≤ lim
  | .thrown => True

theorem processEdges_bound (ctx : TravCtx) (d : Nat) (cid : String) (es : List Edge) :
    ∀ (visited : List String) (acc : List ConnEntry) (next : List String),
      acc.length < ctx.limit →
      stepBound ctx.limit (processEdges ctx d cid es visited acc next) := by
  induction es with
  | nil =>
    intro visited acc next hacc
    simpa [processEdges, stepBound] using hacc
  | cons e rest ih =>
    intro visited acc next hacc
    simp only [processEdges]
    split <;>
    · split
      · exact ih _ _ _ hacc
      · split
        · simp [stepBound]
        · split
          · split
            · rename_i hcond
              simp only [stepBound, List.length_append, List.length_cons, List.length_nil]
              omega
            · rename_i hcond
              refine ih _ _ _ ?_
              simp only [List.length_append, List.length_cons, List.length_nil] at hcond ⊢
              omega
          · split
            · rename_i hcond
              simp only [stepBound]
              omega
            · exact ih _ _ _ hacc

theorem processFrontier_bound (ctx : TravCtx) (hself : ctx.includeSelf = false)
    (d : Nat) (frontier : List String) :
    ∀ (visited : List String) (acc : List ConnEntry) (next : List String),
      acc.length < ctx.limit →
      stepBound ctx.limit (processFrontier ctx d frontier visited acc next) := by
  induction frontier with
  | nil =>
    intro visited acc next hacc
    simpa [processFrontier, stepBound] using hacc
  | cons cid rest ih =>
    intro visited acc next hacc
    simp only [processFrontier]
    rw [hself]
    simp only [Bool.false_and, Bool.false_eq_true, if_false]
    have hstep := processEdges_bound ctx d cid
      (ctx.connectedEdges.filter (fun e => e.source == cid || e.target == cid))
      visited acc next hacc
    split
    · rename_i final hres
      rw [hres] at hstep
      exact hstep
    · simp [stepBound]
    · rename_i visited2 acc2 next2 hres
      rw [hres] at hstep
      exact ih visited2 acc2 next2 hstep

theorem processLevels_bound (ctx : TravCtx) (hself : ctx.includeSelf = false) :
    ∀ (fuel d : Nat) (frontier visited : List String) (acc : List ConnEntry),
      acc.length < ctx.limit →
      ∀ res, processLevels ctx fuel d frontier visited acc = some res →
        res.length ≤ ctx.limit := by
  intro fuel
  induction fuel with
  | zero =>
    intro d frontier visited acc hacc res hres
    simp only [processLevels, Option.some.injEq] at hres
    subst hres
    omega
  | succ fuel ih =>
    intro d frontier visited acc hacc res hres
    simp only [processLevels] at hres
    by_cases hfr : frontier.isEmpty
    · rw [if_pos hfr] at hres
      cases hres
      omega
    · rw [if_neg hfr] at hres
      have hstep := processFrontier_bound ctx hself d frontier visited acc [] hacc
      cases hpf : processFrontier ctx d frontier visited acc [] with
      | finished final =>
        rw [hpf] at hres hstep
        cases hres
        exact hstep
      | thrown =>
        rw [hpf] at hres
        cases hres
      | next visited2 acc2 next2 =>
        rw [hpf] at hres hstep
        exact ih (d + 1) next2 visited2 acc2 hstep res hres

/-- Claim C3 amended: with includeSelf false (its default), the length
of the getConnectedNodes result never exceeds the resolved limit, since
the limit check runs after every neighbor append; the counterexample
shows that with includeSelf true the self entry escapes the check and
the bound can be exceeded by one. -/
theorem c3_traversal_cap_without_includeSelf (st : St) (nodeId : String) (opts : GCOptions)
    (hself : opts.includeSelf.getD false = false) :
    (getConnectedNodes st nodeId opts).length ≤ jsOrNat opts.limit 50 := by
  by_cases hid : nodeId = ""
  · simp [getConnectedNodes, hid]
  · have hlim : 1 ≤ jsOrNat opts.limit 50 := jsOrNat_pos _ _ (by omega)
    have hmain := processLevels_bound
      { nodes := st.nodes,
        connectedEdges := st.edges.filter
          (edgeMatchesSeed opts.edgeTypes (jsOrStr opts.direction "both") nodeId),
        limit := jsOrNat opts.limit 50,
        includeSelf := opts.includeSelf.getD false,
        seedId := nodeId } hself
      (jsOrNat opts.depth 1) 1 [nodeId]
      (if opts.includeSelf.getD false then [] else [nodeId]) []
      (by simpa using hlim)
    simp only [getConnectedNodes, if_neg hid]
    cases hproc : processLevels
        { nodes := st.nodes,
          connectedEdges := st.edges.filter
            (edgeMatchesSeed opts.edgeTypes (jsOrStr opts.direction "both") nodeId),
          limit := jsOrNat opts.limit 50,
          includeSelf := opts.includeSelf.getD false,
          seedId := nodeId } (jsOrNat opts.depth 1) 1 [nodeId]
        (if opts.includeSelf.getD false then [] else [nodeId]) [] with
    | none => simp
    | some acc => simpa using hmain acc hproc

/-- Witness for claim C3 at a concrete store and concrete options with
includeSelf absent. -/
theorem c3_traversal_cap_witness :
    (getConnectedNodes stAB "A" { limit := some 1 }).length ≤
      jsOrNat (GCOptions.limit { limit := some 1 }) 50 :=
  c3_traversal_cap_without_includeSelf stAB "A" { limit := some 1 } (by decide)

theorem getNodeIn_saveNodeInList (node : Node) (now : Int) :
    ∀ l : List Node,
      ∃ m, (saveNodeInList node now l).find? (fun n => n.id == node.id) = some m ∧
        nodeDataOfNode m = nodeDataOfNode node ∧ m.preview = node.preview := by
  intro l
  induction l with
  | nil =>
    refine ⟨{ node with createdAt := some now, updatedAt := some now }, ?_, rfl, rfl⟩
    simp [saveNodeInList, List.find?]
  | cons n rest ih =>
    by_cases h : (n.id == node.id) = true
    · refine ⟨{ node with createdAt := node.createdAt <|> n.createdAt, updatedAt := some now },
        ?_, rfl, rfl⟩
      simp [saveNodeInList, h, List.find?]
    · obtain ⟨m, hm, hview, hprev⟩ := ih
      refine ⟨m, ?_, hview, hprev⟩
      simp only [saveNodeInList, h, if_false, Bool.false_eq_true]
      rw [List.find?_cons_of_neg _ (by simp_all), hm]

/-- Claim C5 amended: whenever updateNode succeeds and the recompute
condition holds (updates.content present, or updates.title present and
truthy), the node stored under the addressed id has its preview equal to
the preview generated from its own current fields: the preview is not
stale after such an update. -/
theorem c5_truthy_update_recomputes_preview (st : St) (nodeId : String)
    (updates : NodeUpdates) (now : Int) (n' : Node) (st' : St)
    (htruthy : (updates.content.isSome || truthyOptStr updates.title) = true)
    (hok : updateNode st nodeId updates now = .ok (n', st')) :
    ∃ m, getNodeIn st'.nodes nodeId = some m ∧
      m.preview = generatePreview (nodeDataOfNode m) now := by
  unfold updateNode at hok
  by_cases hid : nodeId = ""
  · rw [if_pos hid] at hok
    cases hok
  · rw [if_neg hid] at hok
    cases hfind : getNodeIn st.nodes nodeId with
    | none =>
      rw [hfind] at hok
      cases hok
    | some node =>
      rw [hfind] at hok
      simp only [htruthy, if_true, Except.ok.injEq, Prod.mk.injEq] at hok
      obtain ⟨hn, hst⟩ := hok
      obtain ⟨m, hm, hview, hprev⟩ := getNodeIn_saveNodeInList
        { mergeNode node nodeId updates now with
          preview := generatePreview (nodeDataOfNode (mergeNode node nodeId updates now)) now }
        now st.nodes
      refine ⟨m, ?_, ?_⟩
      · rw [← hst]
        exact hm
      · rw [hprev, hview]
        rfl

/-- Witness node produced by the update of the claim C5 witness. -/
def c5wNode : Node :=
  { id := "n1", title := "B", content := { summary := some "Sum" }, url := none,
    timestamp := 5, source := "manual", categories := [], tags := [],
    preview := { title := "B", summary := "Sum", keywords := [], source := "manual", date := 5 },
    createdAt := none, updatedAt := some 100 }

/-- Witness store produced by the update of the claim C5 witness. -/
def c5wSt : St :=
  { nodes := [{ c5wNode with updatedAt := some 100 }], edges := [] }

/-- Witness for claim C5 at a concrete store and a truthy title
update. -/
theorem c5_truthy_update_witness :
    ∃ m, getNodeIn c5wSt.nodes "n1" = some m ∧
      m.preview = generatePreview (nodeDataOfNode m) 100 :=
  c5_truthy_update_recomputes_preview stC5 "n1" { title := some "B" } 100 c5wNode c5wSt
    (by decide) (by rfl)

theorem addEdge_ok_nodes_preserved (st : St) (e : EdgeData) (now : Int) (u : String)
    (p : String × St) (hok : addEdge st e now u = .ok p) : p.2.nodes = st.nodes := by
  unfold addEdge at hok
  split at hok
  · cases hok
  · cases hs : getNodeIn st.nodes e.source with
    | none => rw [hs] at hok; cases hok
    | some sn =>
      rw [hs] at hok
      cases ht : getNodeIn st.nodes e.target with
      | none => rw [ht] at hok; cases hok
      | some tn =>
        rw [ht] at hok
        simp only [Except.ok.injEq] at hok
        rw [← hok]
        rfl

theorem addEdge_ok_target_exists (st : St) (e : EdgeData) (now : Int) (u : String)
    (p : String × St) (hok : addEdge st e now u = .ok p) :
    ∃ nd ∈ st.nodes, nd.id = e.target := by
  unfold addEdge at hok
  split at hok
  · cases hok
  · cases hs : getNodeIn st.nodes e.source with
    | none => rw [hs] at hok; cases hok
    | some sn =>
      rw [hs] at hok
      cases ht : getNodeIn st.nodes e.target with
      | none => rw [ht] at hok; cases hok
      | some tn =>
        refine ⟨tn, List.mem_of_find?_eq_some ht, ?_⟩
        have := List.find?_some ht
        simpa using this

theorem addAutoEdges_unresolvable_target (t : String) (targets : List String) :
    ∀ (st : St) (nodeId : String) (now : Int) (uuids : List String),
      t ∈ targets → (∀ n ∈ st.nodes, n.id ≠ t) →
      ∃ err st2, addAutoEdges st nodeId targets now uuids = (.error err, st2) ∧
        st2.nodes = st.nodes := by
  induction targets with
  | nil =>
    intro st nodeId now uuids hmem _
    cases hmem
  | cons u rest ih =>
    intro st nodeId now uuids hmem h
    simp only [addAutoEdges]
    cases haddE : addEdge st (autoEdgeData nodeId u) now (uuids.headD "") with
    | error e => exact ⟨e, st, rfl, rfl⟩
    | ok p =>
      have hut : u ≠ t := by
        intro hcontra
        obtain ⟨nd, hnd, hid⟩ := addEdge_ok_target_exists st _ now (uuids.headD "") p haddE
        exact h nd hnd (by simpa [hcontra] using hid)
      have htrest : t ∈ rest := by
        cases List.mem_cons.mp hmem with
        | inl hh => exact absurd hh.symm hut
        | inr hh => exact hh
      have hnodes := addEdge_ok_nodes_preserved st _ now (uuids.headD "") p haddE
      obtain ⟨err, st2, heq, hst2⟩ := ih p.2 nodeId now uuids.tail htrest
        (by rw [hnodes]; exact h)
      exact ⟨err, st2, heq, by rw [hst2, hnodes]⟩

theorem saveNodeInList_mem_id (node : Node) (now : Int) :
    ∀ l : List Node, ∃ n ∈ saveNodeInList node now l, n.id = node.id := by
  intro l
  induction l with
  | nil =>
    exact ⟨{ node with createdAt := some now, updatedAt := some now },
      List.mem_singleton.mpr rfl, rfl⟩
  | cons hd rest ih =>
    by_cases h : (hd.id == node.id) = true
    · refine ⟨{ node with createdAt := node.createdAt <|> hd.createdAt, updatedAt := some now },
        ?_, rfl⟩
      simp [saveNodeInList, h]
    · obtain ⟨n, hn, hid⟩ := ih
      refine ⟨n, ?_, hid⟩
      simp only [saveNodeInList, h, if_false, Bool.false_eq_true]
      exact List.mem_cons_of_mem _ hn

/-- Claim C10: addNode is not atomic with respect to its autoConnect
side effect.  When the autoConnect list contains an id that does not
resolve to a node of the post-save collection, the addEdge validation
throws and addNode propagates the error, yet the new node record has
already been persisted, so the store is changed despite the raised
error. -/
theorem c10_addNode_persists_node_despite_autoConnect_failure (st : St)
    (nodeData : NodeData) (now : Int) (uuids : List String) (t : String)
    (hmem : t ∈ nodeData.autoConnect.getD [])
    (hunres : ∀ n ∈ (saveKnowledgeNode st (builtNode nodeData now uuids) now).nodes, n.id ≠ t) :
    (∃ err, (addNode st nodeData now uuids).1 = .error err) ∧
    ∃ n ∈ (addNode st nodeData now uuids).2.nodes, n.id = addNodeId nodeData uuids := by
  cases hac : nodeData.autoConnect with
  | none =>
    rw [hac] at hmem
    cases hmem
  | some targets =>
    rw [hac] at hmem
    simp only [Option.getD_some] at hmem
    obtain ⟨err, st2, heq, hst2⟩ := addAutoEdges_unresolvable_target t targets
      (saveKnowledgeNode st (builtNode nodeData now uuids) now) (addNodeId nodeData uuids) now
      (addNodeUuidsLeft nodeData uuids) hmem hunres
    simp only [addNode, hac, heq]
    constructor
    · exact ⟨err, rfl⟩
    · rw [hst2]
      exact saveNodeInList_mem_id (builtNode nodeData now uuids) now st.nodes

/-- Concrete store for the claim C10 witness. -/
def stC10 : St := { nodes := [mkNode "A" "Node A"], edges := [] }

/-- Concrete node data with an unresolvable autoConnect target for the
claim C10 witness. -/
def c10data : NodeData := { id := some "N", title := some "New", autoConnect := some ["ghost"] }

/-- Witness for claim C10 at a concrete store: the ghost target does
not resolve, addNode errors, yet node N is persisted. -/
theorem c10_addNode_persists_witness :
    (∃ err, (addNode stC10 c10data 7 ["u1", "u2"]).1 = .error err) ∧
    ∃ n ∈ (addNode stC10 c10data 7 ["u1", "u2"]).2.nodes, n.id = addNodeId c10data ["u1", "u2"] :=
  c10_addNode_persists_node_despite_autoConnect_failure stC10 c10data 7 ["u1", "u2"] "ghost"
    (by decide) (by decide)

end Nexus
